import Mathlib

/-!
Verification of the annotation-to-label / pose-feature pipeline of
`gerar_csv.py` (repository eye-on-fight).  The Python source is shallowly
embedded: each Python function becomes a Lean definition over explicit data;
exceptions become `Except`/`Option` results; the CSV writer and the video
capture become explicit result values recording what was written and whether
the capture was released.
-/

namespace EyeOnFight

/-! ## String utilities modelling Python primitives -/

/-- Model of Python `str.strip()`: drop leading and trailing whitespace. -/
def pyStrip (s : String) : String :=
  String.mk (((s.data.dropWhile Char.isWhitespace).reverse.dropWhile
    Char.isWhitespace).reverse)

/-- Accumulating word splitter over characters: groups maximal runs of
non-whitespace characters, discarding whitespace, like Python `str.split()`
with no argument.  `acc` holds the current word, reversed. -/
def splitWsAux : List Char → List Char → List (List Char)
  | acc, [] => if acc.isEmpty then [] else [acc.reverse]
  | acc, c :: rest =>
    if Char.isWhitespace c then
      if acc.isEmpty then splitWsAux [] rest
      else acc.reverse :: splitWsAux [] rest
    else splitWsAux (c :: acc) rest

/-- Model of Python `str.split()` (no argument): split on whitespace runs,
never producing empty tokens. -/
def pySplit (s : String) : List String :=
  (splitWsAux [] s.data).map String.mk

/-- All characters are decimal digits. -/
def isDigits : List Char → Bool
  | [] => true
  | c :: rest => c.isDigit && isDigits rest

/-- Decimal value of a digit string (most significant first). -/
def digitsToNat : List Char → Nat → Nat
  | [], acc => acc
  | c :: rest, acc => digitsToNat rest (acc * 10 + (c.toNat - 48))

/-- Model of Python `int(str)`: an optional sign followed by a non-empty
run of decimal digits; `none` models a `ValueError`. -/
def pyInt (s : String) : Option Int :=
  match s.data with
  | [] => none
  | '-' :: rest =>
    if (!rest.isEmpty) && isDigits rest then some (-(digitsToNat rest 0 : Int))
    else none
  | '+' :: rest =>
    if (!rest.isEmpty) && isDigits rest then some ((digitsToNat rest 0 : Int))
    else none
  | cs =>
    if isDigits cs then some ((digitsToNat cs 0 : Int)) else none

/-! ## Annotation parsing (`read_annotations`, lines 12 to 51) -/

/-- Parsed annotation entry for one video: the dictionary value built by
`read_annotations` in the source (an event string and the interval list). -/
structure VideoAnnot where
  event : String
  intervals : List (Int × Int)
  deriving DecidableEq

/-- Field access `int(parts[i])` of the source: an out-of-range index models
Python's `IndexError`, a token rejected by `int` models `ValueError`. -/
def intField (parts : List String) (i : Nat) : Except String Int :=
  match parts.get? i with
  | none => Except.error "IndexError"
  | some t =>
    match pyInt t with
    | none => Except.error ("ValueError: " ++ t)
    | some n => Except.ok n

/-- Per-line body of the `read_annotations` loop (source lines 29 to 50).
`Except.ok none` is a skipped blank line; `Except.ok (some (v, a))` is a
parsed entry; `Except.error` is a propagating Python exception.  Evaluation
order follows the source: `parts[0]` and `parts[1]` are read first, then the
four interval fields in order. -/
def parseLine (rawLine : String) : Except String (Option (String × VideoAnnot)) :=
  let line := pyStrip rawLine
  if line = "" then Except.ok none
  else
    let parts := pySplit line
    match parts.get? 0, parts.get? 1 with
    | some v, some e =>
      (match intField parts 2 with
      | Except.error m => Except.error m
      | Except.ok s1 =>
        match intField parts 3 with
        | Except.error m => Except.error m
        | Except.ok e1 =>
          match intField parts 4 with
          | Except.error m => Except.error m
          | Except.ok s2 =>
            match intField parts 5 with
            | Except.error m => Except.error m
            | Except.ok e2 =>
              let ivs0 : List (Int × Int) := []
              let ivs1 := if s1 ≠ -1 ∧ e1 ≠ -1 then ivs0 ++ [(s1, e1)] else ivs0
              let ivs2 := if s2 ≠ -1 ∧ e2 ≠ -1 then ivs1 ++ [(s2, e2)] else ivs1
              Except.ok (some (v, ⟨e, ivs2⟩)))
    | _, _ => Except.error "IndexError"

/-- Python dictionary assignment `annotations[video_name] = ...`: replace the
value in place when the key is present, append otherwise. -/
def dictSet (m : List (String × VideoAnnot)) (k : String) (v : VideoAnnot) :
    List (String × VideoAnnot) :=
  if m.any (fun p => p.1 == k) then
    m.map (fun p => if p.1 == k then (k, v) else p)
  else m ++ [(k, v)]

/-- Loop of `read_annotations` over the file's lines, carrying the dictionary
built so far; an exception on any line aborts the whole call, so no partial
mapping escapes. -/
def readAnnotsGo : List (String × VideoAnnot) → List String →
    Except String (List (String × VideoAnnot))
  | acc, [] => Except.ok acc
  | acc, l :: rest =>
    match parseLine l with
    | Except.error m => Except.error m
    | Except.ok none => readAnnotsGo acc rest
    | Except.ok (some (v, a)) => readAnnotsGo (dictSet acc v a) rest

/-- Model of `read_annotations` (source lines 12 to 51), with the file given
as its list of lines. -/
def readAnnots (lines : List String) : Except String (List (String × VideoAnnot)) :=
  readAnnotsGo [] lines

/-! ## Frame labelling (`is_frame_in_annotation`, lines 54 to 62, and the
label computation of `process_video`, lines 140 to 143) -/

/-- Model of `is_frame_in_annotation`: 1 if the frame number lies in some
closed interval of the list, else 0. -/
def isFrameInIntervals (frameNumber : Int) : List (Int × Int) → Nat
  | [] => 0
  | (s, e) :: rest =>
    if s ≤ frameNumber ∧ frameNumber ≤ e then 1
    else isFrameInIntervals frameNumber rest

/-- Label computation of `process_video` (source lines 140 to 143): the
interval test is consulted only when the event is exactly "Fighting". -/
def frameLabel (event : String) (frameNumber : Int)
    (intervals : List (Int × Int)) : Nat :=
  if event = "Fighting" then isFrameInIntervals frameNumber intervals else 0

/-! ## Keypoint normalisation (`detect_keypoints`, lines 65 to 104) -/

/-- A detected keypoint: an (x, y) coordinate pair.  Coordinates are carried
opaquely (no arithmetic is ever performed on them), modelled as rationals. -/
abbrev Point := ℚ × ℚ

/-- Shape of one person's raw coordinate payload as seen by the source:
either a flat array of points (numpy shape (n, 2)) or the same list wrapped
in one extra length-1 dimension (numpy shape (1, n, 2)). -/
inductive KpArray where
  | flat (pts : List Point)
  | nested (pts : List Point)
  deriving DecidableEq

/-- Flattening loop of the source (lines 93 to 94): `[x1, y1, x2, y2, ...]`
in detector order. -/
def flattenPts : List Point → List ℚ
  | [] => []
  | p :: rest => p.1 :: p.2 :: flattenPts rest

/-- Zero padding of the source (lines 96 to 97): extend with zeros up to 34
values when fewer are present; longer lists are left untouched. -/
def pad34 (l : List ℚ) : List ℚ :=
  if l.length < 34 then l ++ List.replicate (34 - l.length) 0 else l

/-- Per-person body of the `detect_keypoints` loop (source lines 83 to 98).
The source unwraps one level when `kp_array.shape[0] == 1`; for a nested
payload the first dimension is always 1, so it is unwrapped and the inner
points are flattened.  For a flat payload the first dimension is the number
of points, so a flat payload of exactly one point is also unwrapped, after
which iteration yields scalars and `point[0]` raises an `IndexError`;
`none` models that exception. -/
def normPerson : KpArray → Option (List ℚ)
  | KpArray.nested pts => some (pad34 (flattenPts pts))
  | KpArray.flat pts =>
    if pts.length == 1 then none else some (pad34 (flattenPts pts))

/-- The accumulation loop over detected persons; a `none` from any person
propagates (the exception aborts `detect_keypoints`). -/
def mapNorm : List KpArray → Option (List (List ℚ))
  | [] => some []
  | a :: rest =>
    match normPerson a with
    | none => none
    | some v =>
      match mapNorm rest with
      | none => none
      | some vs => some (v :: vs)

/-- Detector output for one frame: `none` models the external detector
raising; `some raw` is the list of per-person payloads it returned (empty
when no person was detected, which also covers the source's `results`-empty
and `keypoints is None` guards). -/
abbrev RawFrame := Option (List KpArray)

/-- Model of `detect_keypoints` (source lines 65 to 104): normalise every
person, and substitute a single all-zero 34-vector when no detection was
accumulated. -/
def detect_keypoints (rf : RawFrame) : Option (List (List ℚ)) :=
  match rf with
  | none => none
  | some raw =>
    match mapNorm raw with
    | none => none
    | some dets =>
      some (if dets.isEmpty then [List.replicate 34 0] else dets)

/-! ## Per-video pipeline (`process_video`, lines 107 to 151) -/

/-- One CSV row: either the header row of column names or a data row
`frame, person_id, 34 keypoint values, label`. -/
inductive CsvRow where
  | header (cols : List String)
  | data (frame : Nat) (pid : Nat) (kps : List ℚ) (label : Nat)
  deriving DecidableEq

/-- Header construction of the source (lines 122 to 126): start from
`["frame", "person_id"]`, append `x i` and `y i` for i = 1..17, then
`"label"`. -/
def csvHeader : List String :=
  ((List.range' 1 17).foldl
    (fun h i => h ++ ["x" ++ toString i, "y" ++ toString i])
    ["frame", "person_id"]) ++ ["label"]

/-- Row emission of the source (lines 146 to 148): one data row per person,
`person_id` being the position given by `enumerate`. -/
def mkRows (frame lab : Nat) (dets : List (List ℚ)) : List CsvRow :=
  dets.enum.map (fun pk => CsvRow.data frame pk.1 pk.2 lab)

/-- Frame loop of `process_video` (lines 130 to 148), carrying the frame
counter.  `Except.ok rows` is a run to completion; `Except.error rows` models
the detector raising on the next frame: the rows written so far remain in the
file and the exception propagates past `cap.release()`. -/
def pvLoop (event : String) (intervals : List (Int × Int)) :
    Nat → List RawFrame → Except (List CsvRow) (List CsvRow)
  | _, [] => Except.ok []
  | cnt, f :: rest =>
    match detect_keypoints f with
    | none => Except.error []
    | some dets =>
      let rows := mkRows (cnt + 1) (frameLabel event (Int.ofNat (cnt + 1)) intervals) dets
      match pvLoop event intervals (cnt + 1) rest with
      | Except.ok rs => Except.ok (rows ++ rs)
      | Except.error rs => Except.error (rows ++ rs)

/-- Outcome of one `process_video` call: early return because the capture
could not be opened (no file is created), a detector exception mid-stream
(the partially written file remains), or normal completion. -/
inductive PvResult where
  | sourceUnavailable : PvResult
  | detectorError (rows : List CsvRow) : PvResult
  | ok (rows : List CsvRow) : PvResult
  deriving DecidableEq

/-- Model of `process_video` (lines 107 to 151).  The frame source is
`none` when `cap.isOpened()` is false, otherwise the list of frames the
capture yields; the header row is written before the loop. -/
def process_video (source : Option (List RawFrame)) (event : String)
    (intervals : List (Int × Int)) : PvResult :=
  match source with
  | none => PvResult.sourceUnavailable
  | some frames =>
    match pvLoop event intervals 0 frames with
    | Except.ok rows => PvResult.ok (CsvRow.header csvHeader :: rows)
    | Except.error rows => PvResult.detectorError (CsvRow.header csvHeader :: rows)

/-- Whether `cap.release()` (line 150) was reached on the path that produced
this outcome: only the normal-completion path runs it. -/
def pvReleased : PvResult → Bool
  | PvResult.ok _ => true
  | _ => false

/-- The table left on disk for this outcome: `none` when the output file was
never created (unopenable source). -/
def tableOf : PvResult → Option (List CsvRow)
  | PvResult.sourceUnavailable => none
  | PvResult.detectorError rows => some rows
  | PvResult.ok rows => some rows

/-- Corpus loop of `main` (lines 166 to 174): every annotation entry is
processed in order; `src` resolves a video name to its frame source
(`none` when the file cannot be opened). -/
def runCorpus (src : String → Option (List RawFrame))
    (annots : List (String × VideoAnnot)) : List (String × PvResult) :=
  annots.map (fun entry => (entry.1, process_video (src entry.1) entry.2.event entry.2.intervals))

/-! ## Derived notions used only in the statements -/

/-- A well-shaped video: for each frame, the list of persons, each a list of
points, given to the pipeline in the detector's actual payload shape
(one wrapping dimension of length 1). -/
def encodeFrames (fs : List (List (List Point))) : List RawFrame :=
  fs.map (fun f => some (f.map KpArray.nested))

/-- Number of data rows a frame with these persons produces: one placeholder
row when no person was detected, else one row per person. -/
def detLen (f : List (List Point)) : Nat :=
  if f.isEmpty then 1 else f.length

/-- The (frame, person_id) key of a row. -/
def rowKey : CsvRow → Nat × Nat
  | CsvRow.header _ => (0, 0)
  | CsvRow.data f p _ _ => (f, p)

/-- Whether a row is a data row. -/
def isData : CsvRow → Bool
  | CsvRow.header _ => false
  | CsvRow.data _ _ _ _ => true

/-- The expected (frame, person_id) keys of the data rows when the frames
starting after frame number `s` produce `counts` rows respectively. -/
def expectedKeys : Nat → List Nat → List (Nat × Nat)
  | _, [] => []
  | s, c :: rest =>
    (List.range c).map (fun j => (s + 1, j)) ++ expectedKeys (s + 1) rest

/-- Strict lexicographic order on (frame, person_id) keys. -/
def lexLt (a b : Nat × Nat) : Prop :=
  a.1 < b.1 ∨ (a.1 = b.1 ∧ a.2 < b.2)

/-- The normalised vector the source produces for one person's points. -/
def padPerson (p : List Point) : List ℚ :=
  pad34 (flattenPts p)

/-! ## Helper lemmas -/

lemma isFrameInIntervals_one_iff (f : Int) (ivs : List (Int × Int)) :
    isFrameInIntervals f ivs = 1 ↔ ∃ iv ∈ ivs, iv.1 ≤ f ∧ f ≤ iv.2 := by
  induction ivs with
  | nil => simp [isFrameInIntervals]
  | cons hd tl ih =>
    obtain ⟨s, e⟩ := hd
    by_cases h : s ≤ f ∧ f ≤ e
    · simp only [isFrameInIntervals, if_pos h]
      exact iff_of_true (by simp) ⟨(s, e), List.mem_cons_self _ _, h⟩
    · simp only [isFrameInIntervals, if_neg h, ih]
      constructor
      · rintro ⟨iv, hm, hle⟩
        exact ⟨iv, List.mem_cons_of_mem _ hm, hle⟩
      · rintro ⟨iv, hm, hle⟩
        rcases List.mem_cons.mp hm with h1 | h2
        · subst h1; exact absurd hle h
        · exact ⟨iv, h2, hle⟩

lemma isFrameInIntervals_zero_or_one (f : Int) (ivs : List (Int × Int)) :
    isFrameInIntervals f ivs = 0 ∨ isFrameInIntervals f ivs = 1 := by
  induction ivs with
  | nil => exact Or.inl rfl
  | cons hd tl ih =>
    obtain ⟨s, e⟩ := hd
    by_cases h : s ≤ f ∧ f ≤ e
    · exact Or.inr (by simp [isFrameInIntervals, if_pos h])
    · simpa [isFrameInIntervals, if_neg h] using ih

/-! ## Claim theorems, first group -/

/-- C1: for every frame index, event name and interval list, the label is 1
iff the event is exactly "Fighting" and the frame lies in some closed
interval (both boundaries included); in every other case, including a
positive event with an empty interval list or a frame matching no interval,
the label is 0. -/
theorem frameLabel_one_iff (event : String) (f : Int) (ivs : List (Int × Int)) :
    (frameLabel event f ivs = 1 ↔
      (event = "Fighting" ∧ ∃ iv ∈ ivs, iv.1 ≤ f ∧ f ≤ iv.2)) ∧
    (frameLabel event f ivs = 0 ↔
      ¬ (event = "Fighting" ∧ ∃ iv ∈ ivs, iv.1 ≤ f ∧ f ≤ iv.2)) := by
  by_cases he : event = "Fighting"
  · constructor
    · rw [frameLabel, if_pos he, isFrameInIntervals_one_iff]
      exact ⟨fun h => ⟨he, h⟩, fun h => h.2⟩
    · rw [frameLabel, if_pos he]
      rcases isFrameInIntervals_zero_or_one f ivs with h0 | h1
      · refine iff_of_true h0 ?_
        rintro ⟨-, hex⟩
        rw [← isFrameInIntervals_one_iff] at hex
        omega
      · exact iff_of_false (by omega)
          (not_not_intro ⟨he, (isFrameInIntervals_one_iff f ivs).mp h1⟩)
  · constructor
    · rw [frameLabel, if_neg he]
      exact iff_of_false (by omega) (fun h => he h.1)
    · rw [frameLabel, if_neg he]
      exact iff_of_true rfl (fun h => he h.1)

/-- C2: a raw detection input with zero persons normalises to exactly one
all-zero 34-value vector, never to an empty sequence. -/
theorem detect_keypoints_empty :
    detect_keypoints (some []) = some [List.replicate 34 (0 : ℚ)] ∧
    [List.replicate 34 (0 : ℚ)].length = 1 ∧
    (List.replicate 34 (0 : ℚ)).length = 34 :=
  ⟨rfl, rfl, rfl⟩

/-- C9 counterexample: the same single underlying point, given flat and
given singly nested, does not produce identical results — the flat shape
trips the unwrap heuristic (its first dimension also has length 1) and the
operation raises instead of producing the vector the nested shape gets. -/
theorem normPerson_shape_cex :
    normPerson (KpArray.flat [((3 : ℚ), 4)]) = none ∧
    normPerson (KpArray.nested [((3 : ℚ), 4)]) =
      some ((3 : ℚ) :: (4 : ℚ) :: List.replicate 32 0) ∧
    normPerson (KpArray.flat [((3 : ℚ), 4)]) ≠
      normPerson (KpArray.nested [((3 : ℚ), 4)]) :=
  ⟨rfl, rfl, by decide⟩

/-- C9 amended: the two payload shapes produce identical normalised vectors
for every flat list whose number of points is different from one; a flat
payload of exactly one point is spuriously unwrapped (its first dimension
has length 1) and normalisation fails on it instead of returning the
vector its nested form gets. -/
theorem normPerson_shape_equiv :
    (∀ pts : List Point, pts.length ≠ 1 →
      normPerson (KpArray.flat pts) = normPerson (KpArray.nested pts)) ∧
    (∀ p : Point, normPerson (KpArray.flat [p]) = none ∧
      normPerson (KpArray.nested [p]) = some (padPerson [p])) := by
  constructor
  · intro pts h
    have hb : (pts.length == 1) = false := by simpa using h
    simp [normPerson, hb]
  · intro p
    exact ⟨by simp [normPerson], rfl⟩

/-- Witness for C9 amended at a concrete two-point payload. -/
theorem normPerson_shape_equiv_witness :
    ([((3 : ℚ), 4), ((5 : ℚ), 6)] : List Point).length ≠ 1 ∧
    normPerson (KpArray.flat [((3 : ℚ), 4), ((5 : ℚ), 6)]) =
      normPerson (KpArray.nested [((3 : ℚ), 4), ((5 : ℚ), 6)]) :=
  ⟨by decide, normPerson_shape_equiv.1 _ (by decide)⟩

/-- C8 counterexample: on the unopenable-source path and on a run where the
detector raises at the first frame, `cap.release()` is never reached, so the
source is not released on every execution path. -/
theorem process_video_release_cex :
    pvReleased (process_video none "Fighting" []) = false ∧
    pvReleased (process_video (some [(none : RawFrame)]) "Fighting" []) = false :=
  ⟨rfl, rfl⟩

/-- C10: a video that opens but yields zero frames still produces a table
consisting of exactly the header row, and the outcome is a processed video,
not a source failure. -/
theorem process_video_empty_video (event : String) (ivs : List (Int × Int)) :
    process_video (some []) event ivs = PvResult.ok [CsvRow.header csvHeader] ∧
    tableOf (process_video (some []) event ivs) = some [CsvRow.header csvHeader] ∧
    process_video (some []) event ivs ≠ PvResult.sourceUnavailable := by
  refine ⟨rfl, rfl, ?_⟩
  intro h
  rw [show process_video (some []) event ivs
      = PvResult.ok [CsvRow.header csvHeader] from rfl] at h
  cases h

/-! ## Keypoint and pipeline lemmas -/

lemma flattenPts_length (p : List Point) :
    (flattenPts p).length = 2 * p.length := by
  induction p with
  | nil => rfl
  | cons hd tl ih => simp [flattenPts, ih]; omega

lemma pad34_length (l : List ℚ) (h : l.length ≤ 34) :
    (pad34 l).length = 34 := by
  unfold pad34
  split
  · simp; omega
  · omega

lemma pad34_eq (l : List ℚ) (h : l.length ≤ 34) :
    pad34 l = l ++ List.replicate (34 - l.length) 0 := by
  unfold pad34
  split
  · rfl
  · have : l.length = 34 := by omega
    simp [this]

lemma mapNorm_nested (f : List (List Point)) :
    mapNorm (f.map KpArray.nested) = some (f.map padPerson) := by
  induction f with
  | nil => rfl
  | cons hd tl ih => simp [mapNorm, normPerson, ih, padPerson]

lemma detect_keypoints_nested (f : List (List Point)) :
    detect_keypoints (some (f.map KpArray.nested)) =
      some (if f.isEmpty then [List.replicate 34 0] else f.map padPerson) := by
  cases f with
  | nil => rfl
  | cons hd tl =>
    have h := mapNorm_nested (hd :: tl)
    simp only [List.map_cons] at h
    simp [detect_keypoints, h]

lemma dets_length (f : List (List Point)) :
    (if f.isEmpty then [List.replicate 34 (0 : ℚ)] else f.map padPerson).length
      = detLen f := by
  cases f <;> simp [detLen]

lemma mkRows_keys (frame lab : Nat) (dets : List (List ℚ)) :
    (mkRows frame lab dets).map rowKey
      = (List.range dets.length).map (fun j => (frame, j)) := by
  unfold mkRows
  rw [List.map_map]
  have h1 : (rowKey ∘ fun pk : Nat × List ℚ => CsvRow.data frame pk.1 pk.2 lab)
      = (fun j => ((frame, j) : Nat × Nat)) ∘ Prod.fst := rfl
  rw [h1, ← List.map_map, List.enum_map_fst]

lemma mkRows_data (frame lab : Nat) (dets : List (List ℚ)) :
    ∀ r ∈ mkRows frame lab dets, isData r = true := by
  intro r hr
  obtain ⟨pk, -, rfl⟩ := List.mem_map.mp hr
  rfl

lemma pvLoop_encode_ok (event : String) (ivs : List (Int × Int)) :
    ∀ (fs : List (List (List Point))) (cnt : Nat),
    ∃ rows, pvLoop event ivs cnt (encodeFrames fs) = Except.ok rows ∧
      rows.map rowKey = expectedKeys cnt (fs.map detLen) ∧
      ∀ r ∈ rows, isData r = true := by
  intro fs
  induction fs with
  | nil =>
    intro cnt
    exact ⟨[], rfl, rfl, by simp⟩
  | cons hd tl ih =>
    intro cnt
    obtain ⟨rows, hrows, hkeys, hdata⟩ := ih (cnt + 1)
    refine ⟨mkRows (cnt + 1) (frameLabel event (Int.ofNat (cnt + 1)) ivs)
        (if hd.isEmpty then [List.replicate 34 0] else hd.map padPerson) ++ rows,
      ?_, ?_, ?_⟩
    · show pvLoop event ivs cnt
        (some (hd.map KpArray.nested) :: encodeFrames tl) = _
      rw [pvLoop, detect_keypoints_nested, hrows]
    · rw [List.map_append, hkeys, mkRows_keys, dets_length]
      rfl
    · intro r hr
      rcases List.mem_append.mp hr with h | h
      · exact mkRows_data _ _ _ r h
      · exact hdata r h

lemma pvLoop_encode_err (event : String) (ivs : List (Int × Int))
    (post : List RawFrame) :
    ∀ (pre : List (List (List Point))) (cnt : Nat),
    ∃ rows, pvLoop event ivs cnt (encodeFrames pre ++ (none : RawFrame) :: post)
      = Except.error rows := by
  intro pre
  induction pre with
  | nil =>
    intro cnt
    exact ⟨[], rfl⟩
  | cons hd tl ih =>
    intro cnt
    obtain ⟨rows, hrows⟩ := ih (cnt + 1)
    refine ⟨mkRows (cnt + 1) (frameLabel event (Int.ofNat (cnt + 1)) ivs)
        (if hd.isEmpty then [List.replicate 34 0] else hd.map padPerson) ++ rows, ?_⟩
    show pvLoop event ivs cnt
      (some (hd.map KpArray.nested) :: (encodeFrames tl ++ (none : RawFrame) :: post)) = _
    rw [pvLoop, detect_keypoints_nested, hrows]

/-- C3: a raw detection input of k nonempty persons, each with at most 17
points, normalises to exactly k vectors in detector order, each of length
exactly 34: the person's coordinates flattened in order, zero-padded at the
tail. -/
theorem detect_keypoints_persons (persons : List (List Point))
    (hne : persons ≠ [])
    (hlen : ∀ p ∈ persons, p.length ≤ 17) :
    detect_keypoints (some (persons.map KpArray.nested))
      = some (persons.map padPerson) ∧
    (persons.map padPerson).length = persons.length ∧
    ∀ p ∈ persons, (padPerson p).length = 34 ∧
      padPerson p = flattenPts p ++ List.replicate (34 - 2 * p.length) 0 := by
  refine ⟨?_, by simp, ?_⟩
  · rw [detect_keypoints_nested]
    cases persons with
    | nil => exact absurd rfl hne
    | cons hd tl => simp
  · intro p hp
    have h2 : (flattenPts p).length ≤ 34 := by
      rw [flattenPts_length]
      have := hlen p hp
      omega
    refine ⟨pad34_length _ h2, ?_⟩
    rw [padPerson, pad34_eq _ h2, flattenPts_length]

/-- Witness for C3 at a concrete one-person, one-point input. -/
theorem detect_keypoints_persons_witness :
    ([[((1 : ℚ), 2)]] : List (List Point)) ≠ [] ∧
    detect_keypoints (some (([[((1 : ℚ), 2)]] : List (List Point)).map KpArray.nested))
      = some (([[((1 : ℚ), 2)]] : List (List Point)).map padPerson) :=
  ⟨by decide, (detect_keypoints_persons [[((1 : ℚ), 2)]] (by decide) (by decide)).1⟩

/-- C8 amended: the capture is released exactly on the normal-completion
path; the early return for an unopenable source and a propagating detector
exception mid-stream both skip `cap.release()`. -/
theorem process_video_release_paths (event : String) (ivs : List (Int × Int)) :
    process_video none event ivs = PvResult.sourceUnavailable ∧
    pvReleased PvResult.sourceUnavailable = false ∧
    (∀ fs : List (List (List Point)),
      pvReleased (process_video (some (encodeFrames fs)) event ivs) = true) ∧
    (∀ (pre : List (List (List Point))) (post : List RawFrame),
      pvReleased (process_video
        (some (encodeFrames pre ++ (none : RawFrame) :: post)) event ivs) = false) := by
  refine ⟨rfl, rfl, ?_, ?_⟩
  · intro fs
    obtain ⟨rows, hrows, -, -⟩ := pvLoop_encode_ok event ivs fs 0
    simp [process_video, hrows, pvReleased]
  · intro pre post
    obtain ⟨rows, hrows⟩ := pvLoop_encode_err event ivs post pre 0
    simp [process_video, hrows, pvReleased]

/-! ## Ordering lemmas about the expected keys -/

lemma expectedKeys_fst_ge :
    ∀ (counts : List Nat) (s : Nat) (x : Nat × Nat),
    x ∈ expectedKeys s counts → s + 1 ≤ x.1 := by
  intro counts
  induction counts with
  | nil => intro s x hx; cases hx
  | cons c rest ih =>
    intro s x hx
    rcases List.mem_append.mp hx with h | h
    · obtain ⟨j, -, rfl⟩ := List.mem_map.mp h
      exact Nat.le_refl _
    · have := ih (s + 1) x h
      omega

lemma expectedKeys_pairwise :
    ∀ (counts : List Nat) (s : Nat), List.Pairwise lexLt (expectedKeys s counts) := by
  intro counts
  induction counts with
  | nil => intro s; exact List.Pairwise.nil
  | cons c rest ih =>
    intro s
    rw [expectedKeys, List.pairwise_append]
    refine ⟨?_, ih (s + 1), ?_⟩
    · rw [List.pairwise_map]
      exact (List.pairwise_lt_range c).imp (fun h => Or.inr ⟨rfl, h⟩)
    · intro x hx y hy
      obtain ⟨j, -, rfl⟩ := List.mem_map.mp hx
      exact Or.inl (expectedKeys_fst_ge rest (s + 1) y hy)

lemma lexLt_ne (a b : Nat × Nat) (h : lexLt a b) : a ≠ b := by
  rintro rfl
  rcases h with h | ⟨-, h⟩ <;> omega

lemma expectedKeys_mem :
    ∀ (counts : List Nat) (s i : Nat), i < counts.length →
    (∀ c ∈ counts, 1 ≤ c) →
    ((s + i + 1, 0) : Nat × Nat) ∈ expectedKeys s counts := by
  intro counts
  induction counts with
  | nil => intro s i hi; simp at hi
  | cons c rest ih =>
    intro s i hi hpos
    cases i with
    | zero =>
      refine List.mem_append.mpr (Or.inl ?_)
      refine List.mem_map.mpr ⟨0, List.mem_range.mpr ?_, rfl⟩
      exact hpos c (List.mem_cons_self _ _)
    | succ i' =>
      have hmem := ih (s + 1) i' (by simpa using hi)
        (fun d hd => hpos d (List.mem_cons_of_mem _ hd))
      refine List.mem_append.mpr (Or.inr ?_)
      have harith : s + 1 + i' + 1 = s + (i' + 1) + 1 := by omega
      rwa [harith] at hmem

lemma detLen_pos (f : List (List Point)) : 1 ≤ detLen f := by
  cases f <;> simp [detLen]

/-- C6: for every successfully opened video the output begins with the exact
header row, followed by exactly one data row per (frame, person) pair; the
data rows' (frame, person_id) keys are exactly the blocks of ascending
person ids starting at 0 for the frames 1, 2, ... in order, they are
strictly lexicographically sorted (so each frame's rows are contiguous,
person ids ascend), no key repeats, and every frame the video yielded
appears, starting at 1 with no gaps. -/
theorem process_video_schema (fs : List (List (List Point))) (event : String)
    (ivs : List (Int × Int)) :
    ∃ body,
      process_video (some (encodeFrames fs)) event ivs
        = PvResult.ok (CsvRow.header csvHeader :: body) ∧
      csvHeader = ["frame", "person_id",
        "x1", "y1", "x2", "y2", "x3", "y3", "x4", "y4", "x5", "y5",
        "x6", "y6", "x7", "y7", "x8", "y8", "x9", "y9", "x10", "y10",
        "x11", "y11", "x12", "y12", "x13", "y13", "x14", "y14",
        "x15", "y15", "x16", "y16", "x17", "y17", "label"] ∧
      body.map rowKey = expectedKeys 0 (fs.map detLen) ∧
      List.Chain' lexLt (body.map rowKey) ∧
      (body.map rowKey).Nodup ∧
      (∀ i, i < fs.length → ((i + 1, 0) : Nat × Nat) ∈ body.map rowKey) ∧
      (∀ r ∈ body, isData r = true) := by
  obtain ⟨rows, hrows, hkeys, hdata⟩ := pvLoop_encode_ok event ivs fs 0
  refine ⟨rows, ?_, rfl, hkeys, ?_, ?_, ?_, hdata⟩
  · simp [process_video, hrows]
  · rw [hkeys]
    exact (expectedKeys_pairwise _ 0).chain'
  · rw [hkeys]
    show List.Pairwise _ _
    exact (expectedKeys_pairwise _ 0).imp (fun {a b} h => lexLt_ne a b h)
  · intro i hi
    rw [hkeys]
    have hmem := expectedKeys_mem (fs.map detLen) 0 i (by simpa using hi)
      (by
        intro c hc
        obtain ⟨f, -, rfl⟩ := List.mem_map.mp hc
        exact detLen_pos f)
    simpa using hmem

/-- Witness for C6 at a concrete two-frame video (frame 1 empty, frame 2
with one person). -/
theorem process_video_schema_witness :
    ∃ body,
      process_video (some (encodeFrames [[], [[((1 : ℚ), 2)]]])) "Fighting" []
        = PvResult.ok (CsvRow.header csvHeader :: body) ∧
      ((2, 0) : Nat × Nat) ∈ body.map rowKey := by
  obtain ⟨body, h1, -, -, -, -, hmem, -⟩ :=
    process_video_schema [[], [[((1 : ℚ), 2)]]] "Fighting" []
  exact ⟨body, h1, hmem 1 (by decide)⟩

/-- C7: a video whose source cannot be opened yields a SourceUnavailable
outcome carrying no table, and the corpus driver's results for every other
video are exactly what they would be without the failing entry: one
unopenable video is never fatal to the batch. -/
theorem runCorpus_isolates (src : String → Option (List RawFrame))
    (pre post : List (String × VideoAnnot)) (bad : String × VideoAnnot)
    (hbad : src bad.1 = none) :
    runCorpus src (pre ++ bad :: post)
      = runCorpus src pre
        ++ (bad.1, PvResult.sourceUnavailable) :: runCorpus src post ∧
    tableOf PvResult.sourceUnavailable = none := by
  refine ⟨?_, rfl⟩
  simp [runCorpus, hbad, process_video]

/-- Witness for C7 at a three-video corpus with the middle video
unopenable. -/
theorem runCorpus_isolates_witness :
    (fun s => if s = "bad" then (none : Option (List RawFrame)) else some []) "bad"
      = none ∧
    runCorpus (fun s => if s = "bad" then none else some [])
        ([("a", ⟨"Fighting", [(1, 2)]⟩)] ++
          ("bad", ⟨"Normal", []⟩) :: [("c", ⟨"Normal", []⟩)])
      = runCorpus (fun s => if s = "bad" then none else some [])
          [("a", ⟨"Fighting", [(1, 2)]⟩)]
        ++ ("bad", PvResult.sourceUnavailable)
          :: runCorpus (fun s => if s = "bad" then none else some [])
            [("c", ⟨"Normal", []⟩)] :=
  ⟨rfl, (runCorpus_isolates _ _ _ _ rfl).1⟩

/-! ## Annotation parsing lemmas -/

lemma parseLine_blank (l : String) (h : pyStrip l = "") :
    parseLine l = Except.ok none := by
  simp [parseLine, h]

lemma pySplit_empty : pySplit "" = [] := rfl

lemma parseLine_eq_chain (line v e : String) (ts : List String)
    (hsplit : pySplit (pyStrip line) = v :: e :: ts) :
    parseLine line =
      (match intField (v :: e :: ts) 2 with
      | Except.error m => Except.error m
      | Except.ok s1 =>
        match intField (v :: e :: ts) 3 with
        | Except.error m => Except.error m
        | Except.ok e1 =>
          match intField (v :: e :: ts) 4 with
          | Except.error m => Except.error m
          | Except.ok s2 =>
            match intField (v :: e :: ts) 5 with
            | Except.error m => Except.error m
            | Except.ok e2 =>
              Except.ok (some (v, ⟨e,
                (if s1 ≠ -1 ∧ e1 ≠ -1 then [(s1, e1)] else []) ++
                (if s2 ≠ -1 ∧ e2 ≠ -1 then [(s2, e2)] else [])⟩))) := by
  have hne : pyStrip line ≠ "" := by
    intro h0
    rw [h0, pySplit_empty] at hsplit
    cases hsplit
  simp only [parseLine]
  rw [if_neg hne, hsplit]
  simp only [List.get?]
  cases h2 : intField (v :: e :: ts) 2 with
  | error m => rfl
  | ok s1 =>
    cases h3 : intField (v :: e :: ts) 3 with
    | error m => rfl
    | ok e1 =>
      cases h4 : intField (v :: e :: ts) 4 with
      | error m => rfl
      | ok s2 =>
        cases h5 : intField (v :: e :: ts) 5 with
        | error m => rfl
        | ok e2 =>
          by_cases hc1 : s1 ≠ -1 ∧ e1 ≠ -1 <;> by_cases hc2 : s2 ≠ -1 ∧ e2 ≠ -1 <;>
            simp [hc1, hc2]

lemma parseLine_one_token (line v : String)
    (hsplit : pySplit (pyStrip line) = [v]) :
    parseLine line = Except.error "IndexError" := by
  have hne : pyStrip line ≠ "" := by
    intro h0
    rw [h0, pySplit_empty] at hsplit
    cases hsplit
  simp only [parseLine]
  rw [if_neg hne, hsplit]
  rfl

lemma readAnnotsGo_skip (blank : String) (hb : parseLine blank = Except.ok none)
    (post : List String) :
    ∀ (pre : List String) (acc : List (String × VideoAnnot)),
    readAnnotsGo acc (pre ++ blank :: post) = readAnnotsGo acc (pre ++ post) := by
  intro pre
  induction pre with
  | nil =>
    intro acc
    show readAnnotsGo acc (blank :: post) = readAnnotsGo acc post
    simp [readAnnotsGo, hb]
  | cons l pre ih =>
    intro acc
    show readAnnotsGo acc (l :: (pre ++ blank :: post))
      = readAnnotsGo acc (l :: (pre ++ post))
    cases h : parseLine l with
    | error m => simp [readAnnotsGo, h]
    | ok o =>
      cases o with
      | none => simpa [readAnnotsGo, h] using ih acc
      | some va =>
        obtain ⟨v, a⟩ := va
        simpa [readAnnotsGo, h] using ih (dictSet acc v a)

lemma readAnnotsGo_err (l m : String) (hl : parseLine l = Except.error m)
    (post : List String) :
    ∀ (pre : List String) (acc : List (String × VideoAnnot)),
    ∃ m', readAnnotsGo acc (pre ++ l :: post) = Except.error m' := by
  intro pre
  induction pre with
  | nil =>
    intro acc
    refine ⟨m, ?_⟩
    show readAnnotsGo acc (l :: post) = Except.error m
    simp [readAnnotsGo, hl]
  | cons l' pre ih =>
    intro acc
    show ∃ m', readAnnotsGo acc (l' :: (pre ++ l :: post)) = Except.error m'
    cases h : parseLine l' with
    | error m'' => exact ⟨m'', by simp [readAnnotsGo, h]⟩
    | ok o =>
      cases o with
      | none =>
        obtain ⟨m', hm'⟩ := ih acc
        exact ⟨m', by simpa [readAnnotsGo, h] using hm'⟩
      | some va =>
        obtain ⟨v, a⟩ := va
        obtain ⟨m', hm'⟩ := ih (dictSet acc v a)
        exact ⟨m', by simpa [readAnnotsGo, h] using hm'⟩

/-- C4: blank lines are skipped; a well-formed line contributes interval 1
iff both its markers differ from -1 and interval 2 independently under the
same rule; in particular the line with fields -1 -1 10 20 yields exactly
[(10, 20)] and the line with all four fields -1 yields no interval. -/
theorem readAnnots_interval_rules :
    (∀ (pre post : List String) (blank : String), pyStrip blank = "" →
      readAnnots (pre ++ blank :: post) = readAnnots (pre ++ post)) ∧
    (∀ (line v e t1 t2 t3 t4 : String) (rest : List String) (n1 n2 n3 n4 : Int),
      pySplit (pyStrip line) = v :: e :: t1 :: t2 :: t3 :: t4 :: rest →
      pyInt t1 = some n1 → pyInt t2 = some n2 →
      pyInt t3 = some n3 → pyInt t4 = some n4 →
      parseLine line = Except.ok (some (v, ⟨e,
        (if n1 ≠ -1 ∧ n2 ≠ -1 then [(n1, n2)] else []) ++
        (if n3 ≠ -1 ∧ n4 ≠ -1 then [(n3, n4)] else [])⟩))) ∧
    readAnnots ["vid Ev -1 -1 10 20"] = Except.ok [("vid", ⟨"Ev", [(10, 20)]⟩)] ∧
    readAnnots ["vid Ev -1 -1 -1 -1"] = Except.ok [("vid", ⟨"Ev", []⟩)] := by
  refine ⟨?_, ?_, rfl, rfl⟩
  · intro pre post blank hb
    exact readAnnotsGo_skip blank (parseLine_blank blank hb) post pre []
  · intro line v e t1 t2 t3 t4 rest n1 n2 n3 n4 hsplit hp1 hp2 hp3 hp4
    rw [parseLine_eq_chain line v e (t1 :: t2 :: t3 :: t4 :: rest) hsplit]
    have hf2 : intField (v :: e :: t1 :: t2 :: t3 :: t4 :: rest) 2 = Except.ok n1 := by
      simp [intField, hp1]
    have hf3 : intField (v :: e :: t1 :: t2 :: t3 :: t4 :: rest) 3 = Except.ok n2 := by
      simp [intField, hp2]
    have hf4 : intField (v :: e :: t1 :: t2 :: t3 :: t4 :: rest) 4 = Except.ok n3 := by
      simp [intField, hp3]
    have hf5 : intField (v :: e :: t1 :: t2 :: t3 :: t4 :: rest) 5 = Except.ok n4 := by
      simp [intField, hp4]
    rw [hf2, hf3, hf4, hf5]

/-- Witness for C4 at a concrete blank line ahead of a normal line. -/
theorem readAnnots_interval_rules_witness :
    pyStrip " " = "" ∧
    readAnnots ([] ++ " " :: ["vid Ev 1 2 3 4"])
      = readAnnots ([] ++ ["vid Ev 1 2 3 4"]) :=
  ⟨rfl, readAnnots_interval_rules.1 [] ["vid Ev 1 2 3 4"] " " rfl⟩

/-- C5 counterexample: a non-blank line with seven tokens — a wrong token
count — does not make the parse fail: it returns normally, the seventh token
silently ignored. -/
theorem readAnnots_seven_tokens_ok :
    (pySplit (pyStrip "a B 1 2 3 4 x")).length = 7 ∧
    readAnnots ["a B 1 2 3 4 x"] = Except.ok [("a", ⟨"B", [(1, 2), (3, 4)]⟩)] :=
  ⟨rfl, rfl⟩

/-- C5 amended: a non-blank line with fewer than six tokens, or with a
non-integer in any of the four interval fields, makes the parse raise; the
error propagates out of the whole parse, so no partial mapping is returned.
Lines with more than six tokens, however, are accepted with the extra
tokens ignored. -/
theorem readAnnots_malformed_error :
    (∀ line : String, 1 ≤ (pySplit (pyStrip line)).length →
      (pySplit (pyStrip line)).length ≤ 5 →
      ∃ m, parseLine line = Except.error m) ∧
    (∀ (line v e : String) (ts : List String) (i : Nat) (t : String),
      pySplit (pyStrip line) = v :: e :: ts → i < 4 →
      ts.get? i = some t → pyInt t = none →
      ∃ m, parseLine line = Except.error m) ∧
    (∀ (pre post : List String) (l m : String),
      parseLine l = Except.error m →
      ∃ m', readAnnots (pre ++ l :: post) = Except.error m') := by
  refine ⟨?_, ?_, ?_⟩
  · intro line h1 h5
    rcases hp : pySplit (pyStrip line) with - | ⟨v, rest1⟩
    · rw [hp] at h1; simp at h1
    · rcases rest1 with - | ⟨e, ts⟩
      · exact ⟨"IndexError", parseLine_one_token line v hp⟩
      · rw [hp] at h5
        simp only [List.length_cons] at h5
        have h5' : ts[3]? = none := List.getElem?_eq_none (by omega)
        have hf5 : intField (v :: e :: ts) 5 = Except.error "IndexError" := by
          simp [intField, h5']
        rw [parseLine_eq_chain line v e ts hp]
        cases h2 : intField (v :: e :: ts) 2 with
        | error m => exact ⟨m, rfl⟩
        | ok s1 =>
          cases h3 : intField (v :: e :: ts) 3 with
          | error m => exact ⟨m, rfl⟩
          | ok e1 =>
            cases h4 : intField (v :: e :: ts) 4 with
            | error m => exact ⟨m, rfl⟩
            | ok s2 =>
              rw [hf5]
              exact ⟨"IndexError", rfl⟩
  · intro line v e ts i t hsplit hi hget hbad
    rw [List.get?_eq_getElem?] at hget
    rw [parseLine_eq_chain line v e ts hsplit]
    interval_cases i
    · have hf : intField (v :: e :: ts) 2 = Except.error ("ValueError: " ++ t) := by
        simp [intField, hget, hbad]
      refine ⟨"ValueError: " ++ t, ?_⟩
      rw [hf]
    · cases h2 : intField (v :: e :: ts) 2 with
      | error m => exact ⟨m, rfl⟩
      | ok s1 =>
        have hf : intField (v :: e :: ts) 3 = Except.error ("ValueError: " ++ t) := by
          simp [intField, hget, hbad]
        refine ⟨"ValueError: " ++ t, ?_⟩
        rw [hf]
    · cases h2 : intField (v :: e :: ts) 2 with
      | error m => exact ⟨m, rfl⟩
      | ok s1 =>
        cases h3 : intField (v :: e :: ts) 3 with
        | error m => exact ⟨m, rfl⟩
        | ok e1 =>
          have hf : intField (v :: e :: ts) 4 = Except.error ("ValueError: " ++ t) := by
            simp [intField, hget, hbad]
          refine ⟨"ValueError: " ++ t, ?_⟩
          rw [hf]
    · cases h2 : intField (v :: e :: ts) 2 with
      | error m => exact ⟨m, rfl⟩
      | ok s1 =>
        cases h3 : intField (v :: e :: ts) 3 with
        | error m => exact ⟨m, rfl⟩
        | ok e1 =>
          cases h4 : intField (v :: e :: ts) 4 with
          | error m => exact ⟨m, rfl⟩
          | ok s2 =>
            have hf : intField (v :: e :: ts) 5 = Except.error ("ValueError: " ++ t) := by
              simp [intField, hget, hbad]
            refine ⟨"ValueError: " ++ t, ?_⟩
            rw [hf]
  · intro pre post l m hl
    exact readAnnotsGo_err l m hl post pre []

/-- Witness for C5 amended at a concrete five-token line. -/
theorem readAnnots_malformed_error_witness :
    1 ≤ (pySplit (pyStrip "a B 1 2 3")).length ∧
    (pySplit (pyStrip "a B 1 2 3")).length ≤ 5 ∧
    (∃ m, parseLine "a B 1 2 3" = Except.error m) :=
  ⟨by decide, by decide,
    readAnnots_malformed_error.1 "a B 1 2 3" (by decide) (by decide)⟩

end EyeOnFight
